import Mathlib

/-!
Verification of the chapter/verse reader component
(src/components/reader.tsx) of bhagavad-gita-web.

The component state is embedded as a structure; the event handlers
(handleNextVerse, handlePreviousVerse, toggleBookmark, addHighlight,
the bookmark-jump onClick and fetchChapters) become pure functions on
that state.  JavaScript array indexing with optional chaining
(`chapters[i]?.verses?.length ?? d`) is modelled by an Option-valued
lookup followed by getD.  Indices are integers (JS numbers used as
integers here), so the arithmetic `len - 1` can go negative, exactly
as in the source.
-/

namespace Reader

/-- A verse: a unit of text within a chapter. -/
structure Verse where
  text : String
deriving Repr, DecidableEq

/-- A chapter: a named ordered sequence of verses. -/
structure Chapter where
  name : String
  verses : List Verse
deriving Repr, DecidableEq

/-- A bookmark: a stored (chapter, verse) cursor pair. -/
structure Bookmark where
  chapter : Int
  verse : Int
deriving Repr, DecidableEq

/-- A highlight: a (chapter, verse, text) record. -/
structure Highlight where
  chapter : Int
  verse : Int
  text : String
deriving Repr, DecidableEq

/-- The component state: the useState hooks of Reader. -/
structure ReaderState where
  chapters : List Chapter
  currentChapter : Int
  currentVerse : Int
  fontSize : Int
  bookmarks : List Bookmark
  highlights : List Highlight
  isLoading : Bool
deriving Repr, DecidableEq

/-- The initial state given by the useState initializers:
`chapters = []`, cursor (0,0), fontSize 16, empty bookmark and
highlight lists, isLoading true. -/
def initialState : ReaderState :=
  { chapters := []
    currentChapter := 0
    currentVerse := 0
    fontSize := 16
    bookmarks := []
    highlights := []
    isLoading := true }

/-- JS `chapters[i]` for an integer index: `some` chapter when the
index is in bounds, `none` (undefined) otherwise. -/
def chapterAt? (chs : List Chapter) (i : Int) : Option Chapter :=
  if h : 0 ≤ i ∧ i.toNat < chs.length then some (chs.get ⟨i.toNat, h.2⟩)
  else none

/-- JS `verses[i]` for an integer index. -/
def verseAt? (vs : List Verse) (i : Int) : Option Verse :=
  if h : 0 ≤ i ∧ i.toNat < vs.length then some (vs.get ⟨i.toNat, h.2⟩)
  else none

/-- JS `chapters[i]?.verses?.length ?? d`: the verse count of chapter
`i`, or the default `d` when the chapter index is out of bounds. -/
def versesLengthD (chs : List Chapter) (i : Int) (d : Int) : Int :=
  ((chapterAt? chs i).map (fun ch => (ch.verses.length : Int))).getD d

/-- handleNextVerse (reader.tsx lines 42-51): guard on an empty
chapter list, then either step to the next verse of the current
chapter, or to verse 0 of the next chapter, or do nothing. -/
def handleNextVerse (s : ReaderState) : ReaderState :=
  if s.chapters.length = 0 then s
  else if s.currentVerse < versesLengthD s.chapters s.currentChapter 0 - 1 then
    { s with currentVerse := s.currentVerse + 1 }
  else if s.currentChapter < (s.chapters.length : Int) - 1 then
    { s with currentChapter := s.currentChapter + 1, currentVerse := 0 }
  else s

/-- handlePreviousVerse (reader.tsx lines 53-62): guard on an empty
chapter list, then either step to the previous verse, or to the last
verse of the previous chapter (`?? 1` default in the source), or do
nothing. -/
def handlePreviousVerse (s : ReaderState) : ReaderState :=
  if s.chapters.length = 0 then s
  else if s.currentVerse > 0 then
    { s with currentVerse := s.currentVerse - 1 }
  else if s.currentChapter > 0 then
    { s with currentChapter := s.currentChapter - 1,
             currentVerse := versesLengthD s.chapters (s.currentChapter - 1) 1 - 1 }
  else s

/-- JS `Array.prototype.filter` where the callback looks at the
element index, counted from `k`. -/
def filterIdxFrom (p : Nat → Bookmark → Bool) (k : Nat) : List Bookmark → List Bookmark
  | [] => []
  | b :: rest =>
      if p k b then b :: filterIdxFrom p (k + 1) rest
      else filterIdxFrom p (k + 1) rest

/-- `bookmarks.filter((_, index) => index !== i)` from toggleBookmark. -/
def filterOutIndex (l : List Bookmark) (i : Nat) : List Bookmark :=
  filterIdxFrom (fun idx _ => idx != i) 0 l

/-- The findIndex predicate of toggleBookmark:
`b.chapter === currentChapter && b.verse === currentVerse`. -/
def bookmarkMatches (s : ReaderState) (b : Bookmark) : Bool :=
  b.chapter == s.currentChapter && b.verse == s.currentVerse

/-- toggleBookmark (reader.tsx lines 71-83): findIndex on the exact
(chapter, verse) pair; when found (index not -1, modelled by `some`),
remove that index by filtering; otherwise append the current cursor
position. -/
def toggleBookmark (s : ReaderState) : ReaderState :=
  match s.bookmarks.findIdx? (bookmarkMatches s) with
  | some i => { s with bookmarks := filterOutIndex s.bookmarks i }
  | none =>
      { s with bookmarks :=
          s.bookmarks ++ [{ chapter := s.currentChapter, verse := s.currentVerse }] }

/-- addHighlight (reader.tsx lines 85-88): append a
(chapter, verse, text) record at the current cursor. -/
def addHighlight (t : String) (s : ReaderState) : ReaderState :=
  { s with highlights :=
      s.highlights ++ [{ chapter := s.currentChapter, verse := s.currentVerse, text := t }] }

/-- The bookmark-jump onClick (reader.tsx lines 121-124): the list UI
renders one button per stored bookmark, and clicking the one at index
`i` sets the cursor to that bookmark. A button exists only for an
index inside the list, so an out-of-range index does nothing. -/
def jumpToBookmark (i : Nat) (s : ReaderState) : ReaderState :=
  match s.bookmarks.get? i with
  | some b => { s with currentChapter := b.chapter, currentVerse := b.verse }
  | none => s

/-- Outcome of the awaited fetch + JSON parse: either the parsed
chapter array or a thrown error (network or parse failure). -/
inductive FetchResult where
  | success (data : List Chapter)
  | failure (error : String)
deriving Repr, DecidableEq

/-- Observable effects of fetchChapters: the new state plus what was
written to the console and what toast notifications were raised. -/
structure FetchEffects where
  state : ReaderState
  logs : List String
  toasts : List String
deriving Repr, DecidableEq

/-- fetchChapters (reader.tsx lines 29-40).  On success the chapter
list is replaced by the payload and loading ends; on failure the error
is logged, loading ends, an error toast is raised, and the chapter
list is left untouched.  The function is total: the catch block means
no exception propagates to the caller. -/
def fetchChapters (s : ReaderState) (r : FetchResult) : FetchEffects :=
  match r with
  | .success data =>
      { state := { s with chapters := data, isLoading := false }
        logs := []
        toasts := [] }
  | .failure err =>
      { state := { s with isLoading := false }
        logs := ["Error fetching chapters: " ++ err]
        toasts := ["Failed to load chapters. Please try again later."] }

/-- `chapters[currentChapter]` from the render section. -/
def currentChapterData (s : ReaderState) : Option Chapter :=
  chapterAt? s.chapters s.currentChapter

/-- `currentChapterData?.verses?.[currentVerse]` from the render
section. -/
def currentVerseData (s : ReaderState) : Option Verse :=
  (currentChapterData s).bind (fun ch => verseAt? ch.verses s.currentVerse)

/-- What the main area renders. -/
inductive View where
  | loading
  | verse (chapterName : String) (verseText : String)
  | empty
deriving Repr, DecidableEq

/-- The main-area conditional of the JSX: loading spinner while
isLoading; the verse when the chapter list is non-empty and both the
current chapter and current verse exist; otherwise the
"No content available" empty state. -/
def renderView (s : ReaderState) : View :=
  if s.isLoading then .loading
  else if s.chapters.length > 0 then
    match currentChapterData s, currentVerseData s with
    | some ch, some v => .verse ch.name v.text
    | _, _ => .empty
  else .empty

/-- The user events that mutate the state after the initial fetch. -/
inductive Op where
  | nextVerse
  | prevVerse
  | toggleBM
  | highlight (text : String)
  | jumpBM (i : Nat)
deriving Repr, DecidableEq

/-- Dispatch one user event. -/
def applyOp (s : ReaderState) : Op → ReaderState
  | .nextVerse => handleNextVerse s
  | .prevVerse => handlePreviousVerse s
  | .toggleBM => toggleBookmark s
  | .highlight t => addHighlight t s
  | .jumpBM i => jumpToBookmark i s

/-- Run a sequence of user events. -/
def runOps (s : ReaderState) (ops : List Op) : ReaderState :=
  ops.foldl applyOp s

/-- The cursor invariant of the spec at a given position:
0 ≤ chapter < chapters.length and 0 ≤ verse < verses.length of that
chapter. -/
def posValid (chs : List Chapter) (c v : Int) : Bool :=
  match chapterAt? chs c with
  | some ch => 0 ≤ v && v < (ch.verses.length : Int)
  | none => false

/-- The cursor invariant for a whole state. -/
def cursorValid (s : ReaderState) : Bool :=
  posValid s.chapters s.currentChapter s.currentVerse

/-- Total verse count of a chapter list. -/
def totalVerses (chs : List Chapter) : Nat :=
  (chs.map (fun ch => ch.verses.length)).sum

/-- The chapter index of the last chapter. -/
def lastChapterIdx (chs : List Chapter) : Int :=
  (chs.length : Int) - 1

/-- The verse index of the last verse of the last chapter (0 by
convention for an empty last chapter, unused in that case). -/
def lastVerseIdx (chs : List Chapter) : Int :=
  versesLengthD chs ((chs.length : Int) - 1) 1 - 1

/-- Every stored bookmark points at an existing chapter and verse. -/
def bookmarksValid (s : ReaderState) : Prop :=
  ∀ b ∈ s.bookmarks, posValid s.chapters b.chapter b.verse = true

/-- The reachable-state invariant: every chapter has at least one
verse, the cursor is in bounds, and every stored bookmark is in
bounds. -/
def StateInv (s : ReaderState) : Prop :=
  (∀ ch ∈ s.chapters, ch.verses ≠ []) ∧ cursorValid s = true ∧ bookmarksValid s

/-- Two bookmarks that do not have the same (chapter, verse) pair. -/
def bmDistinct (a b : Bookmark) : Prop :=
  ¬(a.chapter = b.chapter ∧ a.verse = b.verse)

/-- The state right after a successful fetch of the given chapter
list: chapters loaded, loading over, cursor still at (0, 0). -/
def startState (chs : List Chapter) : ReaderState :=
  (fetchChapters initialState (FetchResult.success chs)).state

/-- The two-chapter example of the spec scenario:
Ch1 with verses v1, v2 and Ch2 with verse v3. -/
def demoChapters : List Chapter :=
  [{ name := "Ch1", verses := [{ text := "v1" }, { text := "v2" }] },
   { name := "Ch2", verses := [{ text := "v3" }] }]

/-- A chapter list whose first chapter has no verses. -/
def c3Chapters : List Chapter :=
  [{ name := "A", verses := [] },
   { name := "B", verses := [{ text := "v" }] }]

/-- A chapter list whose second chapter has no verses. -/
def c4Chapters : List Chapter :=
  [{ name := "A", verses := [{ text := "v" }] },
   { name := "B", verses := [] }]

/-- A state with two bookmarks where the first one matches the
cursor position (0, 0). -/
def c6State : ReaderState :=
  { initialState with
      isLoading := false
      bookmarks := [{ chapter := 0, verse := 0 }, { chapter := 1, verse := 1 }] }

/-! Basic facts about indexing. -/

theorem chapterAt?_bounds {chs : List Chapter} {c : Int} {ch : Chapter}
    (h : chapterAt? chs c = some ch) : 0 ≤ c ∧ c.toNat < chs.length := by
  unfold chapterAt? at h
  split at h
  · assumption
  · exact absurd h (by simp)

theorem chapterAt?_length_ne_zero {chs : List Chapter} {c : Int} {ch : Chapter}
    (h : chapterAt? chs c = some ch) : chs.length ≠ 0 := by
  have := chapterAt?_bounds h
  omega

theorem chapterAt?_get {chs : List Chapter} {c : Int} {ch : Chapter}
    (h : chapterAt? chs c = some ch) :
    ∃ hh : c.toNat < chs.length, chs.get ⟨c.toNat, hh⟩ = ch := by
  unfold chapterAt? at h
  split at h
  · rename_i hb
    exact ⟨hb.2, by injection h⟩
  · exact absurd h (by simp)

theorem chapterAt?_mem {chs : List Chapter} {c : Int} {ch : Chapter}
    (h : chapterAt? chs c = some ch) : ch ∈ chs := by
  obtain ⟨hh, hg⟩ := chapterAt?_get h
  exact hg ▸ List.get_mem chs c.toNat hh

theorem chapterAt?_of_bounds {chs : List Chapter} {c : Int}
    (h0 : 0 ≤ c) (hlt : c.toNat < chs.length) :
    chapterAt? chs c = some (chs.get ⟨c.toNat, hlt⟩) := by
  unfold chapterAt?
  rw [dif_pos ⟨h0, hlt⟩]

theorem versesLengthD_of_some {chs : List Chapter} {c : Int} {ch : Chapter} {d : Int}
    (h : chapterAt? chs c = some ch) :
    versesLengthD chs c d = (ch.verses.length : Int) := by
  simp [versesLengthD, h]

theorem posValid_iff {chs : List Chapter} {c v : Int} :
    posValid chs c v = true ↔
      ∃ ch, chapterAt? chs c = some ch ∧ 0 ≤ v ∧ v < (ch.verses.length : Int) := by
  unfold posValid
  cases h : chapterAt? chs c <;> simp [decide_eq_true_eq]

/-! Which state fields each operation leaves unchanged. -/

theorem handleNextVerse_chapters (s : ReaderState) :
    (handleNextVerse s).chapters = s.chapters := by
  unfold handleNextVerse; split_ifs <;> rfl

theorem handleNextVerse_bookmarks (s : ReaderState) :
    (handleNextVerse s).bookmarks = s.bookmarks := by
  unfold handleNextVerse; split_ifs <;> rfl

theorem handlePreviousVerse_chapters (s : ReaderState) :
    (handlePreviousVerse s).chapters = s.chapters := by
  unfold handlePreviousVerse; split_ifs <;> rfl

theorem handlePreviousVerse_bookmarks (s : ReaderState) :
    (handlePreviousVerse s).bookmarks = s.bookmarks := by
  unfold handlePreviousVerse; split_ifs <;> rfl

theorem toggleBookmark_chapters (s : ReaderState) :
    (toggleBookmark s).chapters = s.chapters := by
  unfold toggleBookmark; split <;> rfl

theorem toggleBookmark_currentChapter (s : ReaderState) :
    (toggleBookmark s).currentChapter = s.currentChapter := by
  unfold toggleBookmark; split <;> rfl

theorem toggleBookmark_currentVerse (s : ReaderState) :
    (toggleBookmark s).currentVerse = s.currentVerse := by
  unfold toggleBookmark; split <;> rfl

theorem addHighlight_chapters (t : String) (s : ReaderState) :
    (addHighlight t s).chapters = s.chapters := rfl

theorem addHighlight_cursor (t : String) (s : ReaderState) :
    (addHighlight t s).currentChapter = s.currentChapter ∧
      (addHighlight t s).currentVerse = s.currentVerse := ⟨rfl, rfl⟩

theorem addHighlight_bookmarks (t : String) (s : ReaderState) :
    (addHighlight t s).bookmarks = s.bookmarks := rfl

theorem jumpToBookmark_chapters (i : Nat) (s : ReaderState) :
    (jumpToBookmark i s).chapters = s.chapters := by
  unfold jumpToBookmark; split <;> rfl

theorem jumpToBookmark_bookmarks (i : Nat) (s : ReaderState) :
    (jumpToBookmark i s).bookmarks = s.bookmarks := by
  unfold jumpToBookmark; split <;> rfl

theorem applyOp_chapters (s : ReaderState) (o : Op) :
    (applyOp s o).chapters = s.chapters := by
  cases o with
  | nextVerse => exact handleNextVerse_chapters s
  | prevVerse => exact handlePreviousVerse_chapters s
  | toggleBM => exact toggleBookmark_chapters s
  | highlight t => exact addHighlight_chapters t s
  | jumpBM i => exact jumpToBookmark_chapters i s

/-! Step lemmas for the navigation handlers, assuming the current
chapter exists. -/

theorem next_eq_succ_verse {s : ReaderState} {ch : Chapter}
    (hch : chapterAt? s.chapters s.currentChapter = some ch)
    (hlt : s.currentVerse < (ch.verses.length : Int) - 1) :
    handleNextVerse s = { s with currentVerse := s.currentVerse + 1 } := by
  unfold handleNextVerse
  rw [if_neg (chapterAt?_length_ne_zero hch), versesLengthD_of_some hch, if_pos hlt]

theorem next_eq_next_chapter {s : ReaderState} {ch : Chapter}
    (hch : chapterAt? s.chapters s.currentChapter = some ch)
    (hge : ¬ s.currentVerse < (ch.verses.length : Int) - 1)
    (hlt : s.currentChapter < (s.chapters.length : Int) - 1) :
    handleNextVerse s =
      { s with currentChapter := s.currentChapter + 1, currentVerse := 0 } := by
  unfold handleNextVerse
  rw [if_neg (chapterAt?_length_ne_zero hch), versesLengthD_of_some hch, if_neg hge,
    if_pos hlt]

theorem next_eq_self {s : ReaderState} {ch : Chapter}
    (hch : chapterAt? s.chapters s.currentChapter = some ch)
    (hge : ¬ s.currentVerse < (ch.verses.length : Int) - 1)
    (hge2 : ¬ s.currentChapter < (s.chapters.length : Int) - 1) :
    handleNextVerse s = s := by
  unfold handleNextVerse
  rw [if_neg (chapterAt?_length_ne_zero hch), versesLengthD_of_some hch, if_neg hge,
    if_neg hge2]

theorem prev_eq_pred_verse {s : ReaderState}
    (hlen : s.chapters.length ≠ 0) (hpos : s.currentVerse > 0) :
    handlePreviousVerse s = { s with currentVerse := s.currentVerse - 1 } := by
  unfold handlePreviousVerse
  rw [if_neg hlen, if_pos hpos]

theorem prev_eq_prev_chapter {s : ReaderState}
    (hlen : s.chapters.length ≠ 0) (hv : ¬ s.currentVerse > 0)
    (hc : s.currentChapter > 0) :
    handlePreviousVerse s =
      { s with currentChapter := s.currentChapter - 1,
               currentVerse := versesLengthD s.chapters (s.currentChapter - 1) 1 - 1 } := by
  unfold handlePreviousVerse
  rw [if_neg hlen, if_neg hv, if_pos hc]

theorem prev_eq_self {s : ReaderState}
    (hv : ¬ s.currentVerse > 0) (hc : ¬ s.currentChapter > 0) :
    handlePreviousVerse s = s := by
  unfold handlePreviousVerse
  by_cases hlen : s.chapters.length = 0
  · rw [if_pos hlen]
  · rw [if_neg hlen, if_neg hv, if_neg hc]

/-! Invariant machinery: validity of the cursor and of every stored
bookmark, preserved by each user event. -/

theorem filterIdxFrom_sublist (p : Nat → Bookmark → Bool) :
    ∀ (l : List Bookmark) (k : Nat), List.Sublist (filterIdxFrom p k l) l
  | [], _ => List.Sublist.slnil
  | b :: rest, k => by
      unfold filterIdxFrom
      split
      · exact List.Sublist.cons₂ b (filterIdxFrom_sublist p rest (k + 1))
      · exact List.Sublist.cons b (filterIdxFrom_sublist p rest (k + 1))

theorem next_preserves_cursorValid {s : ReaderState}
    (hall : ∀ ch ∈ s.chapters, ch.verses ≠ [])
    (h : cursorValid s = true) : cursorValid (handleNextVerse s) = true := by
  obtain ⟨ch, hch, hv0, hvlt⟩ := posValid_iff.1 h
  have hb := chapterAt?_bounds hch
  by_cases h1 : s.currentVerse < (ch.verses.length : Int) - 1
  · rw [next_eq_succ_verse hch h1]
    show posValid s.chapters s.currentChapter (s.currentVerse + 1) = true
    exact posValid_iff.2 ⟨ch, hch, by omega, by omega⟩
  · by_cases h2 : s.currentChapter < (s.chapters.length : Int) - 1
    · rw [next_eq_next_chapter hch h1 h2]
      show posValid s.chapters (s.currentChapter + 1) 0 = true
      have h0 : (0 : Int) ≤ s.currentChapter + 1 := by omega
      have h3 : (s.currentChapter + 1).toNat < s.chapters.length := by omega
      have hch2 := chapterAt?_of_bounds h0 h3
      have hmem := chapterAt?_mem hch2
      have hpos : 0 < (s.chapters.get ⟨(s.currentChapter + 1).toNat, h3⟩).verses.length :=
        List.length_pos.2 (hall _ hmem)
      exact posValid_iff.2 ⟨_, hch2, le_refl 0, by exact_mod_cast hpos⟩
    · rw [next_eq_self hch h1 h2]
      exact h

theorem prev_preserves_cursorValid {s : ReaderState}
    (hall : ∀ ch ∈ s.chapters, ch.verses ≠ [])
    (h : cursorValid s = true) : cursorValid (handlePreviousVerse s) = true := by
  obtain ⟨ch, hch, hv0, hvlt⟩ := posValid_iff.1 h
  have hb := chapterAt?_bounds hch
  by_cases h1 : s.currentVerse > 0
  · rw [prev_eq_pred_verse (chapterAt?_length_ne_zero hch) h1]
    show posValid s.chapters s.currentChapter (s.currentVerse - 1) = true
    exact posValid_iff.2 ⟨ch, hch, by omega, by omega⟩
  · by_cases h2 : s.currentChapter > 0
    · rw [prev_eq_prev_chapter (chapterAt?_length_ne_zero hch) h1 h2]
      show posValid s.chapters (s.currentChapter - 1)
        (versesLengthD s.chapters (s.currentChapter - 1) 1 - 1) = true
      have h0 : (0 : Int) ≤ s.currentChapter - 1 := by omega
      have h3 : (s.currentChapter - 1).toNat < s.chapters.length := by omega
      have hch2 := chapterAt?_of_bounds h0 h3
      have hmem := chapterAt?_mem hch2
      have hpos : 0 < (s.chapters.get ⟨(s.currentChapter - 1).toNat, h3⟩).verses.length :=
        List.length_pos.2 (hall _ hmem)
      refine posValid_iff.2 ⟨_, hch2, ?_, ?_⟩ <;>
        rw [versesLengthD_of_some hch2] <;> omega
    · rw [prev_eq_self h1 h2]
      exact h

theorem toggle_preserves_cursorValid (s : ReaderState) :
    cursorValid (toggleBookmark s) = cursorValid s := by
  unfold cursorValid
  rw [toggleBookmark_chapters, toggleBookmark_currentChapter, toggleBookmark_currentVerse]

theorem jump_preserves_cursorValid {s : ReaderState} {i : Nat}
    (hbm : bookmarksValid s) (h : cursorValid s = true) :
    cursorValid (jumpToBookmark i s) = true := by
  unfold jumpToBookmark
  split
  · rename_i b hg
    exact hbm b (List.get?_mem hg)
  · exact h

theorem applyOp_preserves_inv {s : ReaderState} (o : Op)
    (h : StateInv s) : StateInv (applyOp s o) := by
  obtain ⟨hall, hcur, hbm⟩ := h
  refine ⟨?_, ?_, ?_⟩
  · rw [applyOp_chapters]; exact hall
  · cases o with
    | nextVerse => exact next_preserves_cursorValid hall hcur
    | prevVerse => exact prev_preserves_cursorValid hall hcur
    | toggleBM => rw [show applyOp s Op.toggleBM = toggleBookmark s from rfl,
        toggle_preserves_cursorValid]; exact hcur
    | highlight t => exact hcur
    | jumpBM i => exact jump_preserves_cursorValid hbm hcur
  · intro b hmem
    rw [applyOp_chapters]
    cases o with
    | nextVerse =>
        rw [show applyOp s Op.nextVerse = handleNextVerse s from rfl,
          handleNextVerse_bookmarks] at hmem
        exact hbm b hmem
    | prevVerse =>
        rw [show applyOp s Op.prevVerse = handlePreviousVerse s from rfl,
          handlePreviousVerse_bookmarks] at hmem
        exact hbm b hmem
    | toggleBM =>
        rw [show applyOp s Op.toggleBM = toggleBookmark s from rfl] at hmem
        unfold toggleBookmark at hmem
        split at hmem
        · exact hbm b ((filterIdxFrom_sublist _ _ _).mem hmem)
        · simp only at hmem
          rcases List.mem_append.1 hmem with hin | hx
          · exact hbm b hin
          · have hbx : b = { chapter := s.currentChapter, verse := s.currentVerse } := by
              simpa using hx
            subst hbx
            exact hcur
    | highlight t => exact hbm b hmem
    | jumpBM i =>
        rw [show applyOp s (Op.jumpBM i) = jumpToBookmark i s from rfl,
          jumpToBookmark_bookmarks] at hmem
        exact hbm b hmem

theorem runOps_preserves_inv {s : ReaderState} (ops : List Op)
    (h : StateInv s) : StateInv (runOps s ops) := by
  induction ops generalizing s with
  | nil => exact h
  | cons o rest ih => exact ih (applyOp_preserves_inv o h)

/-! The index filter of toggleBookmark is removal at an index. -/

theorem filterIdxFrom_keep (i : Nat) (l : List Bookmark) :
    ∀ k, i < k → filterIdxFrom (fun idx _ => idx != i) k l = l := by
  induction l with
  | nil => intro k _; rfl
  | cons b rest ih =>
      intro k h
      unfold filterIdxFrom
      rw [if_pos (by simp; omega), ih (k + 1) (by omega)]

theorem filterIdxFrom_erase (i : Nat) (l : List Bookmark) :
    ∀ k, k ≤ i → filterIdxFrom (fun idx _ => idx != i) k l = l.eraseIdx (i - k) := by
  induction l with
  | nil => intro k _; simp [filterIdxFrom]
  | cons b rest ih =>
      intro k h
      unfold filterIdxFrom
      by_cases hk : k = i
      · subst hk
        rw [if_neg (by simp), filterIdxFrom_keep k rest (k + 1) (by omega)]
        simp
      · rw [if_pos (by simp; omega), ih (k + 1) (by omega)]
        have hik : i - k = (i - (k + 1)) + 1 := by omega
        rw [hik, List.eraseIdx_cons_succ]

theorem filterOutIndex_eq_eraseIdx (l : List Bookmark) (i : Nat) :
    filterOutIndex l i = l.eraseIdx i := by
  unfold filterOutIndex
  rw [filterIdxFrom_erase i l 0 (Nat.zero_le i), Nat.sub_zero]

/-! findIdx? facts connecting toggleBookmark to eraseP. -/

theorem eraseIdx_of_findIdx?_eq_some {p : Bookmark → Bool} :
    ∀ {l : List Bookmark} {i : Nat}, l.findIdx? p = some i → l.eraseIdx i = l.eraseP p := by
  intro l
  induction l with
  | nil => intro i h; simp at h
  | cons b rest ih =>
      intro i h
      rw [List.findIdx?_cons] at h
      by_cases hb : p b
      · rw [if_pos hb] at h
        injection h with h
        subst h
        rw [List.eraseIdx_cons_zero, List.eraseP_cons_of_pos hb]
      · rw [if_neg hb, List.findIdx?_succ] at h
        cases hj : rest.findIdx? p with
        | none => rw [hj] at h; simp at h
        | some j =>
            rw [hj] at h
            simp only [Option.map_some', Option.some.injEq] at h
            subst h
            rw [List.eraseIdx_cons_succ, List.eraseP_cons_of_neg hb, ih hj]

theorem any_of_findIdx?_eq_some {p : Bookmark → Bool} {l : List Bookmark} {i : Nat}
    (h : l.findIdx? p = some i) : l.any p = true := by
  rw [← List.findIdx?_isSome, h]
  rfl

theorem toggleBookmark_eq_of_some {s : ReaderState} {i : Nat}
    (hfi : s.bookmarks.findIdx? (bookmarkMatches s) = some i) :
    toggleBookmark s = { s with bookmarks := filterOutIndex s.bookmarks i } := by
  unfold toggleBookmark
  rw [hfi]

theorem toggleBookmark_eq_of_none {s : ReaderState}
    (hfi : s.bookmarks.findIdx? (bookmarkMatches s) = none) :
    toggleBookmark s =
      { s with bookmarks :=
          s.bookmarks ++ [{ chapter := s.currentChapter, verse := s.currentVerse }] } := by
  unfold toggleBookmark
  rw [hfi]

theorem bookmarkMatches_toggleBookmark (s : ReaderState) :
    bookmarkMatches (toggleBookmark s) = bookmarkMatches s := by
  funext b
  unfold bookmarkMatches
  rw [toggleBookmark_currentChapter, toggleBookmark_currentVerse]

theorem bookmarkMatches_self (s : ReaderState) :
    bookmarkMatches s { chapter := s.currentChapter, verse := s.currentVerse } = true := by
  simp [bookmarkMatches]

theorem eq_cursor_of_bookmarkMatches {s : ReaderState} {b : Bookmark}
    (h : bookmarkMatches s b = true) :
    b = { chapter := s.currentChapter, verse := s.currentVerse } := by
  cases b
  simp only [bookmarkMatches, Bool.and_eq_true, beq_iff_eq] at h
  simp [h.1, h.2]

/-! Toggling twice, and duplicate-freeness of the bookmark list. -/

theorem toggle_toggle_perm {s : ReaderState}
    (hc : s.bookmarks.countP (bookmarkMatches s) ≤ 1) :
    ((toggleBookmark (toggleBookmark s)).bookmarks).Perm s.bookmarks := by
  cases hfi : s.bookmarks.findIdx? (bookmarkMatches s) with
  | none =>
      have h1 := toggleBookmark_eq_of_none hfi
      have hfi2 : (toggleBookmark s).bookmarks.findIdx?
          (bookmarkMatches (toggleBookmark s)) = some s.bookmarks.length := by
        rw [bookmarkMatches_toggleBookmark, h1]
        simp [List.findIdx?_append, hfi, List.findIdx?_cons, bookmarkMatches_self]
      have h2 := toggleBookmark_eq_of_some hfi2
      rw [h2]
      show (filterOutIndex (toggleBookmark s).bookmarks s.bookmarks.length).Perm s.bookmarks
      rw [filterOutIndex_eq_eraseIdx, h1]
      show ((s.bookmarks ++ [_]).eraseIdx s.bookmarks.length).Perm s.bookmarks
      rw [List.eraseIdx_append_of_length_le (Nat.le_refl _), Nat.sub_self,
        List.eraseIdx_cons_zero, List.append_nil]
  | some i =>
      have h1 := toggleBookmark_eq_of_some hfi
      have hany := any_of_findIdx?_eq_some hfi
      obtain ⟨a, hmem, hpa⟩ := List.any_eq_true.1 hany
      obtain ⟨a, l₁, l₂, hl₁, hpa2, hsplit, herase⟩ := List.exists_of_eraseP hmem hpa
      have hbm1 : (toggleBookmark s).bookmarks = l₁ ++ l₂ := by
        rw [h1]
        show filterOutIndex s.bookmarks i = l₁ ++ l₂
        rw [filterOutIndex_eq_eraseIdx, eraseIdx_of_findIdx?_eq_some hfi, herase]
      have hl₂ : ∀ b ∈ l₂, ¬ bookmarkMatches s b = true := by
        have hcount : s.bookmarks.countP (bookmarkMatches s) =
            l₁.countP (bookmarkMatches s) + (l₂.countP (bookmarkMatches s) + 1) := by
          rw [hsplit, List.countP_append, List.countP_cons_of_pos _ _ hpa2]
        have : l₂.countP (bookmarkMatches s) = 0 := by omega
        exact List.countP_eq_zero.1 this
      have hfi2 : (toggleBookmark s).bookmarks.findIdx?
          (bookmarkMatches (toggleBookmark s)) = none := by
        rw [bookmarkMatches_toggleBookmark, hbm1]
        refine List.findIdx?_eq_none_iff.2 ?_
        intro b hb
        rcases List.mem_append.1 hb with h | h
        · exact Bool.eq_false_iff.2 fun hb2 => hl₁ b h hb2
        · exact Bool.eq_false_iff.2 fun hb2 => hl₂ b h hb2
      have h2 := toggleBookmark_eq_of_none hfi2
      rw [h2]
      show ((toggleBookmark s).bookmarks ++
          [({ chapter := (toggleBookmark s).currentChapter,
              verse := (toggleBookmark s).currentVerse } : Bookmark)]).Perm s.bookmarks
      rw [toggleBookmark_currentChapter, toggleBookmark_currentVerse, hbm1, hsplit]
      have hax : a = { chapter := s.currentChapter, verse := s.currentVerse } :=
        eq_cursor_of_bookmarkMatches hpa2
      rw [← hax]
      exact (List.perm_append_singleton a (l₁ ++ l₂)).trans List.perm_middle.symm

theorem toggle_preserves_pairwise {s : ReaderState}
    (h : s.bookmarks.Pairwise bmDistinct) :
    (toggleBookmark s).bookmarks.Pairwise bmDistinct := by
  cases hfi : s.bookmarks.findIdx? (bookmarkMatches s) with
  | some i =>
      rw [toggleBookmark_eq_of_some hfi]
      show (filterOutIndex s.bookmarks i).Pairwise bmDistinct
      rw [filterOutIndex_eq_eraseIdx]
      exact h.sublist (List.eraseIdx_sublist s.bookmarks i)
  | none =>
      rw [toggleBookmark_eq_of_none hfi]
      show (s.bookmarks ++ [_]).Pairwise bmDistinct
      refine List.pairwise_append.2 ⟨h, List.pairwise_singleton _ _, ?_⟩
      intro a ha b hb
      have hfalse := List.findIdx?_eq_none_iff.1 hfi a ha
      rw [List.mem_singleton.1 hb]
      intro hcontra
      rw [show bookmarkMatches s a =
          (a.chapter == s.currentChapter && a.verse == s.currentVerse) from rfl] at hfalse
      simp only [Bool.and_eq_false_iff, beq_eq_false_iff_ne] at hfalse
      rcases hfalse with h1 | h1 <;> exact h1 (by simp [hcontra.1, hcontra.2])

theorem applyOp_preserves_pairwise {s : ReaderState} (o : Op)
    (h : s.bookmarks.Pairwise bmDistinct) :
    (applyOp s o).bookmarks.Pairwise bmDistinct := by
  cases o with
  | nextVerse =>
      rw [show applyOp s Op.nextVerse = handleNextVerse s from rfl,
        handleNextVerse_bookmarks]
      exact h
  | prevVerse =>
      rw [show applyOp s Op.prevVerse = handlePreviousVerse s from rfl,
        handlePreviousVerse_bookmarks]
      exact h
  | toggleBM => exact toggle_preserves_pairwise h
  | highlight t => exact h
  | jumpBM i =>
      rw [show applyOp s (Op.jumpBM i) = jumpToBookmark i s from rfl,
        jumpToBookmark_bookmarks]
      exact h

theorem runOps_preserves_pairwise {s : ReaderState} (ops : List Op)
    (h : s.bookmarks.Pairwise bmDistinct) :
    (runOps s ops).bookmarks.Pairwise bmDistinct := by
  induction ops generalizing s with
  | nil => exact h
  | cons o rest ih => exact ih (applyOp_preserves_pairwise o h)

/-! Repeated advancing: walking through the whole book. -/

theorem chapterAt?_natCast {chs : List Chapter} {c : Nat} (h : c < chs.length) :
    chapterAt? chs (c : Int) = some chs[c] := by
  have h0 : (0 : Int) ≤ (c : Int) := by omega
  have ht : ((c : Int)).toNat < chs.length := by simpa using h
  rw [chapterAt?_of_bounds h0 ht]
  rfl

theorem iterate_next_within (k : Nat) :
    ∀ (s : ReaderState) (ch : Chapter),
      chapterAt? s.chapters s.currentChapter = some ch →
      0 ≤ s.currentVerse →
      s.currentVerse + (k : Int) ≤ (ch.verses.length : Int) - 1 →
      handleNextVerse^[k] s = { s with currentVerse := s.currentVerse + (k : Int) } := by
  induction k with
  | zero =>
      intro s ch hch hv0 hk
      rw [Function.iterate_zero_apply]
      cases s
      simp
  | succ n ih =>
      intro s ch hch hv0 hk
      rw [Function.iterate_succ_apply,
        next_eq_succ_verse hch (by push_cast at hk ⊢; omega),
        ih { s with currentVerse := s.currentVerse + 1 } ch hch
          (by show 0 ≤ s.currentVerse + 1; omega)
          (by show s.currentVerse + 1 + (n : Int) ≤ _; push_cast at hk ⊢; omega)]
      have harith : s.currentVerse + 1 + (n : Int) =
          s.currentVerse + (((n : Nat) + 1 : Nat) : Int) := by push_cast; ring
      show ({ s with currentVerse := s.currentVerse + 1 + (n : Int) } : ReaderState) = _
      rw [harith]

theorem iterate_next_suffix :
    ∀ (rest : List Chapter) (s : ReaderState) (c : Nat),
      s.chapters.drop c = rest → rest ≠ [] →
      (∀ ch ∈ s.chapters, ch.verses ≠ []) →
      s.currentChapter = (c : Int) → s.currentVerse = 0 →
      handleNextVerse^[totalVerses rest - 1] s =
        { s with currentChapter := (s.chapters.length : Int) - 1,
                 currentVerse :=
                   versesLengthD s.chapters ((s.chapters.length : Int) - 1) 1 - 1 } := by
  intro rest
  induction rest with
  | nil => intro s c _ hne; exact absurd rfl hne
  | cons ch rest' ih =>
      intro s c hdrop _ hall hc hv
      have hld := List.length_drop c s.chapters
      rw [hdrop] at hld
      simp only [List.length_cons] at hld
      have hclen : c < s.chapters.length := by omega
      have hgetc := List.drop_eq_getElem_cons hclen
      rw [hdrop] at hgetc
      injection hgetc with hch hrest'
      have hchAt : chapterAt? s.chapters (c : Int) = some ch := by
        rw [chapterAt?_natCast hclen, hch]
      have hchmem : ch ∈ s.chapters := chapterAt?_mem hchAt
      have hLpos : 0 < ch.verses.length := List.length_pos.2 (hall ch hchmem)
      have hcc : chapterAt? s.chapters s.currentChapter = some ch := by
        rw [hc]; exact hchAt
      have hv0 : (0 : Int) ≤ s.currentVerse := by omega
      have hk : s.currentVerse + ((ch.verses.length - 1 : Nat) : Int) ≤
          (ch.verses.length : Int) - 1 := by
        rw [hv]; omega
      have hwithin := iterate_next_within (ch.verses.length - 1) s ch hcc hv0 hk
      by_cases hrest : rest' = []
      · subst hrest
        simp only [List.length_nil] at hld
        have htot : totalVerses (ch :: []) = ch.verses.length := by
          simp [totalVerses]
        rw [htot, hwithin]
        have hlast : versesLengthD s.chapters ((s.chapters.length : Int) - 1) 1 =
            (ch.verses.length : Int) := by
          have hcl : ((s.chapters.length : Int) - 1) = (c : Int) := by omega
          rw [hcl, versesLengthD_of_some hchAt]
        rw [hlast]
        have e1 : (s.chapters.length : Int) - 1 = s.currentChapter := by omega
        have e2 : (ch.verses.length : Int) - 1 =
            s.currentVerse + ((ch.verses.length - 1 : Nat) : Int) := by
          rw [hv]; omega
        rw [e1, e2]
      · have hT : 1 ≤ totalVerses rest' := by
          obtain ⟨ch2, rest'', hrw⟩ := List.exists_cons_of_ne_nil hrest
          have hm : ch2 ∈ s.chapters := by
            refine List.drop_subset (c + 1) s.chapters ?_
            rw [← hrest', hrw]
            exact List.mem_cons_self ch2 rest''
          have := List.length_pos.2 (hall ch2 hm)
          rw [hrw]
          simp only [totalVerses, List.map_cons, List.sum_cons]
          omega
        have hcons : totalVerses (ch :: rest') =
            ch.verses.length + totalVerses rest' := by
          simp [totalVerses]
        have htot : totalVerses (ch :: rest') - 1 =
            (totalVerses rest' - 1) + (1 + (ch.verses.length - 1)) := by omega
        rw [htot, Function.iterate_add_apply, Function.iterate_add_apply, hwithin,
          Function.iterate_one]
        have hne1 : ¬ s.currentVerse + ((ch.verses.length - 1 : Nat) : Int) <
            (ch.verses.length : Int) - 1 := by
          rw [hv]; omega
        have hrlen : 0 < rest'.length := List.length_pos.2 hrest
        have hlt1 : s.currentChapter < (s.chapters.length : Int) - 1 := by
          rw [hc]; omega
        have hstep : handleNextVerse
              ({ s with currentVerse :=
                  s.currentVerse + ((ch.verses.length - 1 : Nat) : Int) } : ReaderState) =
            { s with currentChapter := s.currentChapter + 1, currentVerse := 0 } :=
          next_eq_next_chapter hcc hne1 hlt1
        have hcc2 : s.currentChapter + 1 = ((c + 1 : Nat) : Int) := by
          rw [hc]; push_cast; ring
        have hfin : handleNextVerse^[totalVerses rest' - 1]
              ({ s with currentChapter := s.currentChapter + 1,
                        currentVerse := 0 } : ReaderState) =
            { s with currentChapter := (s.chapters.length : Int) - 1,
                     currentVerse :=
                       versesLengthD s.chapters ((s.chapters.length : Int) - 1) 1 - 1 } :=
          ih { s with currentChapter := s.currentChapter + 1, currentVerse := 0 } (c + 1)
            hrest'.symm hrest hall hcc2 rfl
        rw [hstep, hfin]

/-! The claims. -/

/-- Claim C1: for every non-empty chapter list (witnessed by the
current chapter existing at the cursor) with the cursor on an actual
verse of the current chapter, handleNextVerse moves to the next verse
of the current chapter; if the current verse is the last of its
chapter it moves to verse 0 of the next chapter; and at the last
verse of the last chapter it leaves the state unchanged. -/
theorem advance_spec (s : ReaderState) (ch : Chapter)
    (hch : chapterAt? s.chapters s.currentChapter = some ch)
    (hv0 : 0 ≤ s.currentVerse)
    (hvlt : s.currentVerse < (ch.verses.length : Int)) :
    (s.currentVerse < (ch.verses.length : Int) - 1 →
      handleNextVerse s = { s with currentVerse := s.currentVerse + 1 }) ∧
    (s.currentVerse = (ch.verses.length : Int) - 1 →
      s.currentChapter < (s.chapters.length : Int) - 1 →
      handleNextVerse s =
        { s with currentChapter := s.currentChapter + 1, currentVerse := 0 }) ∧
    (s.currentVerse = (ch.verses.length : Int) - 1 →
      s.currentChapter = (s.chapters.length : Int) - 1 →
      handleNextVerse s = s) := by
  refine ⟨?_, ?_, ?_⟩
  · intro h1
    exact next_eq_succ_verse hch h1
  · intro h1 h2
    exact next_eq_next_chapter hch (by omega) h2
  · intro h1 h2
    exact next_eq_self hch (by omega) (by omega)

theorem advance_spec_witness :
    handleNextVerse (startState demoChapters) =
      { startState demoChapters with
          currentVerse := (startState demoChapters).currentVerse + 1 } :=
  (advance_spec (startState demoChapters)
      { name := "Ch1", verses := [{ text := "v1" }, { text := "v2" }] }
      (by decide) (by decide) (by decide)).1 (by decide)

/-- Claim C2: for every non-empty chapter list with the cursor on an
actual verse, handlePreviousVerse moves to the previous verse; at
verse 0 of a chapter other than the first it moves to the last verse
(index length - 1) of the previous chapter; and at the very first
verse of the first chapter any number of repeated calls leaves the
state unchanged. -/
theorem retreat_spec (s : ReaderState) (ch : Chapter)
    (hch : chapterAt? s.chapters s.currentChapter = some ch)
    (hv0 : 0 ≤ s.currentVerse)
    (hvlt : s.currentVerse < (ch.verses.length : Int)) :
    (0 < s.currentVerse →
      handlePreviousVerse s = { s with currentVerse := s.currentVerse - 1 }) ∧
    (s.currentVerse = 0 → 0 < s.currentChapter →
      ∀ ch2, chapterAt? s.chapters (s.currentChapter - 1) = some ch2 →
        handlePreviousVerse s =
          { s with currentChapter := s.currentChapter - 1,
                   currentVerse := (ch2.verses.length : Int) - 1 }) ∧
    (s.currentVerse = 0 → s.currentChapter = 0 →
      ∀ k : Nat, handlePreviousVerse^[k] s = s) := by
  refine ⟨?_, ?_, ?_⟩
  · intro h1
    exact prev_eq_pred_verse (chapterAt?_length_ne_zero hch) h1
  · intro h1 h2 ch2 hch2
    rw [prev_eq_prev_chapter (chapterAt?_length_ne_zero hch) (by omega) h2,
      versesLengthD_of_some hch2]
  · intro h1 h2 k
    exact Function.iterate_fixed (prev_eq_self (by omega) (by omega)) k

theorem retreat_spec_witness :
    handlePreviousVerse^[5] (startState demoChapters) = startState demoChapters :=
  (retreat_spec (startState demoChapters)
      { name := "Ch1", verses := [{ text := "v1" }, { text := "v2" }] }
      (by decide) (by decide) (by decide)).2.2 (by decide) (by decide) 5

/-- Claim C7: with an empty chapter list both navigation handlers
return the state unchanged (the early guard), and being total
functions they cannot fail. -/
theorem empty_nav_noop (s : ReaderState) (h : s.chapters = []) :
    handleNextVerse s = s ∧ handlePreviousVerse s = s := by
  have hlen : s.chapters.length = 0 := by rw [h]; rfl
  refine ⟨?_, ?_⟩
  · unfold handleNextVerse
    rw [if_pos hlen]
  · unfold handlePreviousVerse
    rw [if_pos hlen]

theorem empty_nav_noop_witness :
    handleNextVerse initialState = initialState ∧
      handlePreviousVerse initialState = initialState :=
  empty_nav_noop initialState rfl

/-- Claim C8: when the initial fetch fails, fetchChapters (a total
function, so no exception escapes) logs the error, raises the error
toast, leaves the chapter list empty, and the main area then renders
the empty state. -/
theorem fetch_failure_spec (err : String) :
    (fetchChapters initialState (FetchResult.failure err)).state.chapters = [] ∧
    (fetchChapters initialState (FetchResult.failure err)).logs ≠ [] ∧
    (fetchChapters initialState (FetchResult.failure err)).toasts =
      ["Failed to load chapters. Please try again later."] ∧
    renderView (fetchChapters initialState (FetchResult.failure err)).state =
      View.empty := by
  refine ⟨rfl, ?_, rfl, rfl⟩
  exact List.cons_ne_nil _ _

/-- Claim C9: addHighlight appends exactly one (chapter, verse, text)
record at the current cursor, unconditionally (no validation, no
deduplication), growing the list by one and keeping every earlier
entry in place. -/
theorem addHighlight_spec (s : ReaderState) (t : String) :
    (addHighlight t s).highlights =
      s.highlights ++
        [{ chapter := s.currentChapter, verse := s.currentVerse, text := t }] ∧
    (addHighlight t s).highlights.length = s.highlights.length + 1 := by
  refine ⟨rfl, ?_⟩
  show (s.highlights ++ [_]).length = _
  rw [List.length_append]
  rfl

/-- Claim C3 fails as stated: on the chapter list c3Chapters (first
chapter empty, one verse total) the cursor after (total - 1) = 0
advances is still (0, 0), not the last verse of the last chapter, and
a further advance is not a no-op. -/
theorem advance_traversal_cex :
    ¬ ((handleNextVerse^[totalVerses c3Chapters - 1]
          (startState c3Chapters)).currentChapter = lastChapterIdx c3Chapters ∧
       (handleNextVerse^[totalVerses c3Chapters - 1]
          (startState c3Chapters)).currentVerse = lastVerseIdx c3Chapters ∧
       handleNextVerse (handleNextVerse^[totalVerses c3Chapters - 1]
          (startState c3Chapters)) =
        handleNextVerse^[totalVerses c3Chapters - 1] (startState c3Chapters)) := by
  decide

/-- Claim C3 (amended): for every non-empty chapter list in which
every chapter has at least one verse, (total verse count - 1) calls
of handleNextVerse from the freshly fetched state at cursor (0, 0)
reach the last verse of the last chapter, one further call is a
no-op, and in particular on the two-chapter demo list three advances
reach cursor (1, 0) showing v3 and a fourth changes nothing. -/
theorem advance_traversal (chs : List Chapter) (hne : chs ≠ [])
    (hall : ∀ ch ∈ chs, ch.verses ≠ []) :
    (handleNextVerse^[totalVerses chs - 1] (startState chs)).currentChapter =
      lastChapterIdx chs ∧
    (handleNextVerse^[totalVerses chs - 1] (startState chs)).currentVerse =
      lastVerseIdx chs ∧
    handleNextVerse (handleNextVerse^[totalVerses chs - 1] (startState chs)) =
      handleNextVerse^[totalVerses chs - 1] (startState chs) ∧
    ((handleNextVerse^[3] (startState demoChapters)).currentChapter = 1 ∧
     (handleNextVerse^[3] (startState demoChapters)).currentVerse = 0 ∧
     currentVerseData (handleNextVerse^[3] (startState demoChapters)) =
       some { text := "v3" } ∧
     handleNextVerse^[4] (startState demoChapters) =
       handleNextVerse^[3] (startState demoChapters)) := by
  have hdrop : (startState chs).chapters.drop 0 = chs := List.drop_zero _
  have hmain := iterate_next_suffix chs (startState chs) 0 hdrop hne hall rfl rfl
  refine ⟨?_, ?_, ?_, ?_, ?_, ?_, ?_⟩
  · rw [hmain]; rfl
  · rw [hmain]; rfl
  · rw [hmain]
    have hlenpos : 0 < chs.length := List.length_pos.2 hne
    have hlt : chs.length - 1 < chs.length := by omega
    have he : ((chs.length : Int) - 1) = ((chs.length - 1 : Nat) : Int) := by omega
    have hchl : chapterAt? chs ((chs.length : Int) - 1) =
        some (chs.get ⟨chs.length - 1, hlt⟩) := by
      rw [he]
      exact chapterAt?_natCast hlt
    have hge : ¬ versesLengthD chs ((chs.length : Int) - 1) 1 - 1 <
        ((chs.get ⟨chs.length - 1, hlt⟩).verses.length : Int) - 1 := by
      rw [versesLengthD_of_some hchl]
      omega
    have hge2 : ¬ ((chs.length : Int) - 1) < (chs.length : Int) - 1 := by omega
    exact next_eq_self hchl hge hge2
  · decide
  · decide
  · decide
  · decide

theorem advance_traversal_witness :
    (handleNextVerse^[totalVerses demoChapters - 1]
        (startState demoChapters)).currentChapter = lastChapterIdx demoChapters :=
  (advance_traversal demoChapters (by decide) (by decide)).1

/-- Claim C4 fails as stated: on c4Chapters (second chapter empty)
the chapter list is non-empty and the cursor (0, 0) satisfies the
invariant, yet one advance lands on chapter 1 verse 0 where chapter 1
has no verses, breaking the invariant. -/
theorem ops_preserve_cursor_invariant_cex :
    (startState c4Chapters).chapters ≠ [] ∧
    cursorValid (startState c4Chapters) = true ∧
    cursorValid (runOps (startState c4Chapters) [Op.nextVerse]) = false := by
  decide

/-- Claim C4 (amended): whenever every chapter has at least one
verse, the cursor is in bounds and every stored bookmark is in bounds
(true of all states reachable from the initial empty-bookmark state),
any sequence of the five user operations keeps the cursor in
bounds. -/
theorem ops_preserve_cursor_invariant (s : ReaderState) (ops : List Op)
    (hall : ∀ ch ∈ s.chapters, ch.verses ≠ [])
    (hcur : cursorValid s = true)
    (hbm : bookmarksValid s) :
    cursorValid (runOps s ops) = true :=
  (runOps_preserves_inv ops ⟨hall, hcur, hbm⟩).2.1

theorem ops_preserve_cursor_invariant_witness :
    cursorValid (runOps
      { startState demoChapters with bookmarks := [{ chapter := 1, verse := 0 }] }
      [Op.nextVerse, Op.toggleBM, Op.highlight "note", Op.jumpBM 0, Op.prevVerse]) =
      true :=
  ops_preserve_cursor_invariant _ _ (by decide) (by decide)
    (by unfold bookmarksValid; decide)

/-- Claim C5: toggling removes the (first) stored bookmark whose
(chapter, verse) pair equals the current cursor exactly when such a
bookmark is present, and otherwise appends a bookmark with the
current cursor pair. -/
theorem toggleBookmark_spec (s : ReaderState) :
    (toggleBookmark s).bookmarks =
      if s.bookmarks.any (bookmarkMatches s) then
        s.bookmarks.eraseP (bookmarkMatches s)
      else
        s.bookmarks ++ [{ chapter := s.currentChapter, verse := s.currentVerse }] := by
  cases hfi : s.bookmarks.findIdx? (bookmarkMatches s) with
  | some i =>
      rw [toggleBookmark_eq_of_some hfi, if_pos (any_of_findIdx?_eq_some hfi)]
      show filterOutIndex s.bookmarks i = _
      rw [filterOutIndex_eq_eraseIdx, eraseIdx_of_findIdx?_eq_some hfi]
  | none =>
      have hall := List.findIdx?_eq_none_iff.1 hfi
      have hnone : ¬ s.bookmarks.any (bookmarkMatches s) = true := by
        intro hx
        obtain ⟨b, hb, hpb⟩ := List.any_eq_true.1 hx
        rw [hall b hb] at hpb
        exact Bool.false_ne_true hpb
      rw [toggleBookmark_eq_of_none hfi, if_neg hnone]

/-- Claim C6 fails as stated: with bookmarks [(0,0), (1,1)] and the
cursor at (0, 0), toggling twice yields [(1,1), (0,0)], which is not
the original list (the re-added bookmark goes to the end). -/
theorem toggle_twice_cex :
    (toggleBookmark (toggleBookmark c6State)).bookmarks ≠ c6State.bookmarks := by
  decide

/-- Claim C6 (amended): when at most one stored bookmark matches the
cursor (always true in reachable states, where the list is
duplicate-free), toggling twice restores the bookmark list up to
order: the result is a permutation of the original, the matching
entry having moved to the end. -/
theorem toggle_twice_perm (s : ReaderState)
    (h : s.bookmarks.countP (bookmarkMatches s) ≤ 1) :
    ((toggleBookmark (toggleBookmark s)).bookmarks).Perm s.bookmarks :=
  toggle_toggle_perm h

theorem toggle_twice_perm_witness :
    ((toggleBookmark (toggleBookmark c6State)).bookmarks).Perm c6State.bookmarks :=
  toggle_twice_perm c6State (by decide)

/-- Claim C10: starting from the initial empty bookmark list, no
sequence of user operations can ever produce two bookmarks with the
same (chapter, verse) pair, because toggling at a stored position
removes it instead of appending. -/
theorem bookmarks_never_duplicated (s : ReaderState) (ops : List Op)
    (h : s.bookmarks = []) :
    (runOps s ops).bookmarks.Pairwise
      (fun a b => ¬(a.chapter = b.chapter ∧ a.verse = b.verse)) := by
  have h0 : s.bookmarks.Pairwise bmDistinct := by
    rw [h]
    exact List.Pairwise.nil
  exact runOps_preserves_pairwise ops h0

theorem bookmarks_never_duplicated_witness :
    (runOps initialState
        [Op.toggleBM, Op.nextVerse, Op.toggleBM, Op.toggleBM]).bookmarks.Pairwise
      (fun a b => ¬(a.chapter = b.chapter ∧ a.verse = b.verse)) :=
  bookmarks_never_duplicated initialState
    [Op.toggleBM, Op.nextVerse, Op.toggleBM, Op.toggleBM] rfl

end Reader
